import Mathlib

set_option maxRecDepth 10000

/-!
Shallow embedding of the matrix-keypad scanning engine of this repository.

Two drivers are embedded:
* `Keypad_uasyncio` — the cooperative model (src/keypad/keypad_uasyncio.py):
  per-key records carry a `down_count`, long key presses are supported, and
  decoded characters are pushed to a FIFO queue by `scan_coro`.
* `Keypad_Timer` — the interrupt-timer model (src/keypad/keypad_timer.py):
  per-key records carry only a state, the timer callback samples one row per
  tick and stores the character of the last pressed key in a single overwrite slot.

Hardware pins are embedded as pure values: a column read while a row is
asserted becomes a boolean input (`pressed`) supplied per sample, and the row
output pins become a list of boolean levels.  Python `None` becomes `Option`.
-/

namespace Keypad

/-- Key state and event codes, from the Python class constants
(`KEY_UP = 0`, `KEY_DOWN = 1`, `KEY_DOWN_LONG = 2`, `KEY_UP_LONG = 3`).
The timer model uses only `KEY_UP` and `KEY_DOWN`. -/
def KEY_UP : Nat := 0

/-- Key state and event code `KEY_DOWN = 1`. -/
def KEY_DOWN : Nat := 1

/-- Key state and event code `KEY_DOWN_LONG = 2` (uasyncio model only). -/
def KEY_DOWN_LONG : Nat := 2

/-- Event code `KEY_UP_LONG = 3` (uasyncio model only; an event, not a state). -/
def KEY_UP_LONG : Nat := 3

/-- Default long-keypress threshold, `LONG_KEYPRESS_COUNT_DEFAULT = 20`. -/
def LONG_KEYPRESS_COUNT_DEFAULT : Nat := 20

/-- A per-key record of the uasyncio model:
a dict with fields char, state and down_count (initially KEY_UP and 0). -/
structure KeyRec where
  char : Char
  state : Nat
  down_count : Nat
deriving DecidableEq

/-- Default record used only for out-of-range list access (never reached on
the concrete 16-key tables). -/
def KEY_REC_DFLT : KeyRec := ⟨' ', 0, 0⟩

/-- The short (normal) key characters of both models, row-major. -/
def keypad_chars : List Char :=
  ['1', '2', '3', 'A',
   '4', '5', '6', 'B',
   '7', '8', '9', 'C',
   '*', '0', '#', 'D']

/-- Long-press characters `chars_long` of the uasyncio model, row-major. -/
def chars_long : List Char :=
  ['m', 'i', 'e', 'a',
   'n', 'j', 'f', 'b',
   'o', 'k', 'g', 'c',
   'p', 'l', 'h', 'd']

/-- Initial key table of the uasyncio model: all keys UP with zero count. -/
def keys_init : List KeyRec := keypad_chars.map (fun c => ⟨c, KEY_UP, 0⟩)

/-- Transition of `Keypad_uasyncio.key_process` on a single key record, given
the long-press threshold `L` (`self.long_keypress_count`) and the sampled
column value.  Returns the reported event (Python `key_event`, `None` when no
event) and the updated record. -/
def Keypad_uasyncio.key_process (L : Nat) (key : KeyRec) (pressed : Bool) :
    Option Nat × KeyRec :=
  if pressed then
    if key.state = KEY_UP then
      (some KEY_DOWN, { key with state := KEY_DOWN })
    else if key.state = KEY_DOWN then
      let key2 : KeyRec := { key with down_count := key.down_count + 1 }
      if L ≤ key2.down_count then
        (some KEY_DOWN_LONG, { key2 with state := KEY_DOWN_LONG })
      else
        (none, key2)
    else
      (none, key)
  else
    if key.state = KEY_DOWN then
      let ev : Nat := if key.down_count < L then KEY_UP else KEY_UP_LONG
      (some ev, { key with state := KEY_UP, down_count := 0 })
    else
      (none, { key with state := KEY_UP, down_count := 0 })

/-- One step of the inner column loop of `scan_coro`: process the key at
`key_code`, and append the decoded character to the output when the event is
`KEY_UP` (short character from the key table) or `KEY_DOWN_LONG` (character
from `chars_long`). -/
def Keypad_uasyncio.scan_key (L : Nat) (st : List KeyRec × List Char)
    (key_code : Nat) (pressed : Bool) : List KeyRec × List Char :=
  let key := st.1.getD key_code KEY_REC_DFLT
  let r := Keypad_uasyncio.key_process L key pressed
  let keys2 := st.1.set key_code r.2
  if r.1 = some KEY_UP then
    (keys2, st.2 ++ [(keys2.getD key_code KEY_REC_DFLT).char])
  else if r.1 = some KEY_DOWN_LONG then
    (keys2, st.2 ++ [chars_long.getD key_code ' '])
  else
    (keys2, st.2)

/-- One full pass of `scan_coro` over the 4x4 matrix: rows in order, then the
four columns of each row, with `key_code` running row-major (`row * 4 + col`).
The input `pressed row col` is the level of column pin `col` sampled while row
`row` is asserted during this pass.  Returns the updated key table and the
characters pushed to the queue, in push order. -/
def Keypad_uasyncio.scan_cycle (L : Nat) (keys : List KeyRec)
    (pressed : Nat → Nat → Bool) : List KeyRec × List Char :=
  (((List.range 4).map (fun row => (List.range 4).map (fun col => (row, col)))).flatten).foldl
    (fun st rc => Keypad_uasyncio.scan_key L st (rc.1 * 4 + rc.2) (pressed rc.1 rc.2))
    (keys, [])

/-- Several consecutive passes of `scan_coro`, one input matrix per pass;
collects all queued characters in order. -/
def Keypad_uasyncio.scan_run (L : Nat) (keys : List KeyRec) :
    List (Nat → Nat → Bool) → List KeyRec × List Char
  | [] => (keys, [])
  | p :: ps =>
    let r := Keypad_uasyncio.scan_cycle L keys p
    let rest := Keypad_uasyncio.scan_run L r.1 ps
    (rest.1, r.2 ++ rest.2)

/-- State-only part of a `key_process` step. -/
def Keypad_uasyncio.key_step (L : Nat) (key : KeyRec) (pressed : Bool) : KeyRec :=
  (Keypad_uasyncio.key_process L key pressed).2

/-- Final record of one key after a sequence of its own sampled column
values. -/
def Keypad_uasyncio.runKey (L : Nat) (key : KeyRec) (inputs : List Bool) : KeyRec :=
  inputs.foldl (Keypad_uasyncio.key_step L) key

/-- Record of one key just before sample number `n` (0-based) of its input
sequence. -/
def Keypad_uasyncio.state_at (L : Nat) (key : KeyRec) (inputs : List Bool)
    (n : Nat) : KeyRec :=
  Keypad_uasyncio.runKey L key (inputs.take n)

/-- Event reported by `key_process` at sample number `n` (0-based), `none`
when the sequence is shorter or no event is reported. -/
def Keypad_uasyncio.event_at (L : Nat) (key : KeyRec) (inputs : List Bool)
    (n : Nat) : Option Nat :=
  match inputs[n]? with
  | some b => (Keypad_uasyncio.key_process L (Keypad_uasyncio.state_at L key inputs n) b).1
  | none => none

/-- The queue-visible events of one key over its sample sequence: `scan_coro`
pushes a character exactly when `key_process` reports `KEY_UP` or
`KEY_DOWN_LONG`; this lists those event codes in order. -/
def Keypad_uasyncio.key_events (L : Nat) (key : KeyRec) : List Bool → List Nat
  | [] => []
  | b :: bs =>
    let r := Keypad_uasyncio.key_process L key b
    (if r.1 = some KEY_UP then [KEY_UP]
     else if r.1 = some KEY_DOWN_LONG then [KEY_DOWN_LONG]
     else []) ++ Keypad_uasyncio.key_events L r.2 bs

/-- Per-row settle delay of the uasyncio model:
`self.row_scan_delay_ms = 40 // len(self.rows)` (integer division). -/
def Keypad_uasyncio.row_scan_delay_ms (num_rows : Nat) : Nat := 40 / num_rows

/-- Total settle time of one full scan cycle of the uasyncio model: the
per-row delay is awaited once per row. -/
def Keypad_uasyncio.total_settle_ms (num_rows : Nat) : Nat :=
  num_rows * Keypad_uasyncio.row_scan_delay_ms num_rows

/-- A per-key record of the timer model: a dict with fields char and state
(no down counter, no long-press support). -/
structure TKeyRec where
  char : Char
  state : Nat
deriving DecidableEq

/-- Default timer-model record for out-of-range list access. -/
def TKEY_DFLT : TKeyRec := ⟨' ', 0⟩

/-- Initial key table of the timer model: all keys UP. -/
def tkeys_init : List TKeyRec := keypad_chars.map (fun c => ⟨c, KEY_UP⟩)

/-- Transition of `Keypad_Timer.key_process` on a single key record: only the
UP/DOWN edge transitions report events. -/
def Keypad_Timer.key_process (key : TKeyRec) (pressed : Bool) :
    Option Nat × TKeyRec :=
  if pressed then
    if key.state = KEY_UP then
      (some KEY_DOWN, { key with state := KEY_DOWN })
    else
      (none, key)
  else
    if key.state = KEY_DOWN then
      (some KEY_UP, { key with state := KEY_UP })
    else
      (none, key)

/-- Abstraction of a uasyncio key record to a timer key record: forget the
down counter. -/
def absRec (k : KeyRec) : TKeyRec := ⟨k.char, k.state⟩

/-- State of a `Keypad_Timer` instance: the key table, the row output pin
levels, the row index `self.scan_row`, and the single overwrite slot
(`self.key_code`, `self.key_char`; Python `None` is `none`). -/
structure TimerState where
  keys : List TKeyRec
  row_vals : List Bool
  scan_row : Nat
  key_code : Option Nat
  key_char : Option Char
deriving DecidableEq

/-- Initial timer-model state: keys UP, rows deasserted, `scan_row = 0`,
empty slot. -/
def timer_init : TimerState :=
  ⟨tkeys_init, [false, false, false, false], 0, none, none⟩

/-- The `scan_row_update` method of the timer model: deassert the current row, advance
`scan_row` by one wrapping at the number of row pins, assert the new row. -/
def Keypad_Timer.scan_row_update (s : TimerState) : TimerState :=
  let rv := s.row_vals.set s.scan_row false
  let sr := s.scan_row + 1
  let sr2 := if rv.length ≤ sr then 0 else sr
  { s with scan_row := sr2, row_vals := rv.set sr2 true }

/-- One iteration of the column loop in `timer_callback`: process the key at
`key_code + col`; on a `KEY_DOWN` event store `key_code` (the row base — as
in the source, which does not add `col`) and the character of the key at that
row base into the overwrite slot. -/
def Keypad_Timer.tick_col (colv : Nat → Bool) (key_code : Nat)
    (s : TimerState) (col : Nat) : TimerState :=
  let key := s.keys.getD (key_code + col) TKEY_DFLT
  let r := Keypad_Timer.key_process key (colv col)
  let s2 := { s with keys := s.keys.set (key_code + col) r.2 }
  if r.1 = some KEY_DOWN then
    { s2 with key_code := some key_code,
              key_char := some ((s2.keys.getD key_code TKEY_DFLT).char) }
  else
    s2

/-- The `timer_callback` method of the timer model: sample the four columns of the row
`self.scan_row` (the row asserted during this invocation), then run
`scan_row_update`.  The input `colv col` is the level of column pin `col`
during this tick. -/
def Keypad_Timer.timer_callback (s : TimerState) (colv : Nat → Bool) : TimerState :=
  let key_code := s.scan_row * 4
  Keypad_Timer.scan_row_update
    ((List.range 4).foldl (Keypad_Timer.tick_col colv key_code) s)

/-- The `get_key` method of the timer model: read the slot character and clear the slot. -/
def Keypad_Timer.get_key (s : TimerState) : Option Char × TimerState :=
  (s.key_char, { s with key_code := none, key_char := none })

/-- The slot write performed by `timer_callback` on a `KEY_DOWN` event
(`self.key_code = key_code; self.key_char = ...`), abstracted over the stored
values: an overwrite-mode put. -/
def Keypad_Timer.slot_put (s : TimerState) (kc : Nat) (ch : Char) : TimerState :=
  { s with key_code := some kc, key_char := some ch }

/-- Several consecutive timer ticks, one column-level input per tick. -/
def Keypad_Timer.ticks_run (s : TimerState) (ivs : List (Nat → Bool)) : TimerState :=
  ivs.foldl Keypad_Timer.timer_callback s

/-- Input matrix with only the key at row 0, column 0 pressed. -/
def m00 : Nat → Nat → Bool := fun row col => row == 0 && col == 0

/-- Input matrix with only the key at row 0, column 1 pressed. -/
def m01 : Nat → Nat → Bool := fun row col => row == 0 && col == 1

/-- Input matrix with no key pressed. -/
def m_off : Nat → Nat → Bool := fun _ _ => false

/-- The key table after 21 pressed scan cycles of key (0,0): key 0 is in
state DOWN_LONG with count 20, all other keys are fresh. -/
def S_star : List KeyRec := keys_init.set 0 ⟨'1', KEY_DOWN_LONG, 20⟩

/-- The key table with key 0 held in state DOWN with count c, all other keys
fresh. -/
def K_down (c : Nat) : List KeyRec := keys_init.set 0 ⟨'1', KEY_DOWN, c⟩

/-- Invariant of a uasyncio key record: in state UP the count is zero, in
state DOWN the count is strictly below the long-press threshold. -/
def KeyInv (L : Nat) (k : KeyRec) : Prop :=
  (k.state = KEY_UP → k.down_count = 0) ∧ (k.state = KEY_DOWN → k.down_count < L)

end Keypad

namespace Keypad

/-- Splitting the sample sequence of a key splits its queue-visible events, with
the second half starting from the key record the first half produces. -/
theorem key_events_append (L : Nat) (ys : List Bool) :
    ∀ (xs : List Bool) (k : KeyRec),
      Keypad_uasyncio.key_events L k (xs ++ ys) =
        Keypad_uasyncio.key_events L k xs ++
          Keypad_uasyncio.key_events L (Keypad_uasyncio.runKey L k xs) ys := by
  intro xs
  induction xs with
  | nil =>
    intro k
    simp [Keypad_uasyncio.key_events, Keypad_uasyncio.runKey]
  | cons x xs ih =>
    intro k
    simp only [List.cons_append, Keypad_uasyncio.key_events, Keypad_uasyncio.runKey,
      List.foldl_cons, Keypad_uasyncio.key_step, List.append_eq]
    rw [ih]
    simp [Keypad_uasyncio.runKey, List.append_assoc]

/-- A pressed sample in state DOWN below the threshold: the count increments
and no event is reported. -/
theorem key_process_down_true (L c : Nat) (ch : Char) (h : c + 1 < L) :
    Keypad_uasyncio.key_process L ⟨ch, 1, c⟩ true = (none, ⟨ch, 1, c + 1⟩) := by
  have hne : ¬ L ≤ c + 1 := by omega
  simp [Keypad_uasyncio.key_process, KEY_UP, KEY_DOWN, hne]

/-- A run of pressed samples in state DOWN that stays below the threshold:
the count adds up and no event is pushed. -/
theorem run_true_down (L : Nat) (ch : Char) :
    ∀ (m c : Nat), c + m < L →
      Keypad_uasyncio.runKey L ⟨ch, 1, c⟩ (List.replicate m true) = ⟨ch, 1, c + m⟩ ∧
      Keypad_uasyncio.key_events L ⟨ch, 1, c⟩ (List.replicate m true) = [] := by
  intro m
  induction m with
  | zero =>
    intro c h
    simp [Keypad_uasyncio.runKey, Keypad_uasyncio.key_events]
  | succ m ih =>
    intro c h
    have hstep := key_process_down_true L c ch (by omega)
    have ihm := ih (c + 1) (by omega)
    rw [show c + 1 + m = c + (m + 1) by omega] at ihm
    constructor
    · simp only [List.replicate_succ, Keypad_uasyncio.runKey, List.foldl_cons,
        Keypad_uasyncio.key_step, hstep]
      exact ihm.1
    · simp only [List.replicate_succ, Keypad_uasyncio.key_events, hstep]
      simp only [KEY_UP, KEY_DOWN_LONG]
      simp [ihm.2]

/-- A run of pressed samples in state DOWN_LONG: the record is unchanged and
no event is pushed. -/
theorem run_true_dl (L c : Nat) (ch : Char) :
    ∀ (m : Nat),
      Keypad_uasyncio.runKey L ⟨ch, 2, c⟩ (List.replicate m true) = ⟨ch, 2, c⟩ ∧
      Keypad_uasyncio.key_events L ⟨ch, 2, c⟩ (List.replicate m true) = [] := by
  have hstep : Keypad_uasyncio.key_process L ⟨ch, 2, c⟩ true = (none, ⟨ch, 2, c⟩) := by
    simp [Keypad_uasyncio.key_process, KEY_UP, KEY_DOWN]
  intro m
  induction m with
  | zero =>
    simp [Keypad_uasyncio.runKey, Keypad_uasyncio.key_events]
  | succ m ih =>
    constructor
    · simp only [List.replicate_succ, Keypad_uasyncio.runKey, List.foldl_cons,
        Keypad_uasyncio.key_step, hstep]
      exact ih.1
    · simp only [List.replicate_succ, Keypad_uasyncio.key_events, hstep]
      simp only [KEY_UP, KEY_DOWN_LONG]
      simp [ih.2]

/-- The first pressed sample of a fresh key reports KEY_DOWN (and is not
pushed to the queue). -/
theorem key_process_fresh_true (L : Nat) (ch : Char) :
    Keypad_uasyncio.key_process L ⟨ch, 0, 0⟩ true = (some 1, ⟨ch, 1, 0⟩) := by
  simp [Keypad_uasyncio.key_process, KEY_UP, KEY_DOWN]

/-- The escalation step: a pressed sample in state DOWN whose increment
reaches the threshold reports KEY_DOWN_LONG. -/
theorem key_process_down_escalate (L c : Nat) (ch : Char) (h : L ≤ c + 1) :
    Keypad_uasyncio.key_process L ⟨ch, 1, c⟩ true = (some 2, ⟨ch, 2, c + 1⟩) := by
  simp [Keypad_uasyncio.key_process, KEY_UP, KEY_DOWN, KEY_DOWN_LONG, h]

/-- Holding a fresh key for exactly L+1 samples escalates at the last of
them: one long event, final record DOWN_LONG with count L. -/
theorem run_fresh_escalate (L : Nat) (ch : Char) (hL : 1 ≤ L) :
    Keypad_uasyncio.runKey L ⟨ch, 0, 0⟩ (List.replicate (L + 1) true) = ⟨ch, 2, L⟩ ∧
    Keypad_uasyncio.key_events L ⟨ch, 0, 0⟩ (List.replicate (L + 1) true) = [2] := by
  have hsplit : List.replicate (L + 1) true = true :: (List.replicate (L - 1) true ++ [true]) := by
    rw [show L + 1 = (L - 1) + 1 + 1 by omega]
    rw [List.replicate_succ]
    congr 1
    rw [List.replicate_succ' (L - 1) true]
  have hdown := run_true_down L ch (L - 1) 0 (by omega)
  rw [Nat.zero_add] at hdown
  have hesc := key_process_down_escalate L (L - 1) ch (by omega)
  rw [show L - 1 + 1 = L by omega] at hesc
  constructor
  · rw [hsplit]
    simp only [Keypad_uasyncio.runKey, List.foldl_cons, List.foldl_append,
      Keypad_uasyncio.key_step, key_process_fresh_true]
    have h1 := hdown.1
    simp only [Keypad_uasyncio.runKey] at h1
    rw [h1]
    simp [hesc]
  · rw [hsplit]
    simp only [Keypad_uasyncio.key_events, key_process_fresh_true]
    have h0 : ((some 1 : Option Nat) = some KEY_UP) = False := by simp [KEY_UP]
    have h2 : ((some 1 : Option Nat) = some KEY_DOWN_LONG) = False := by simp [KEY_DOWN_LONG]
    rw [key_events_append L [true] (List.replicate (L - 1) true) ⟨ch, 1, 0⟩]
    rw [hdown.1, hdown.2]
    simp [Keypad_uasyncio.key_events, hesc, KEY_UP, KEY_DOWN_LONG]

end Keypad

namespace Keypad

/-- Releasing a key in state DOWN below the threshold reports KEY_UP and
resets the record. -/
theorem key_process_down_false (L c : Nat) (ch : Char) (h : c < L) :
    Keypad_uasyncio.key_process L ⟨ch, 1, c⟩ false = (some 0, ⟨ch, 0, 0⟩) := by
  simp [Keypad_uasyncio.key_process, KEY_UP, KEY_DOWN, h]

/-- Releasing a key in state DOWN_LONG reports no event and resets the
record. -/
theorem key_process_dl_false (L c : Nat) (ch : Char) :
    Keypad_uasyncio.key_process L ⟨ch, 2, c⟩ false = (none, ⟨ch, 0, 0⟩) := by
  simp [Keypad_uasyncio.key_process, KEY_UP, KEY_DOWN]

/-- C3: a key pressed and then released after fewer than L consecutive
pressed samples produces exactly one queue event, the short (KEY_UP) event,
and it is reported at the release sample. -/
theorem key_short_press_spec (L n : Nat) (ch : Char) (h1 : 1 ≤ n) (h2 : n < L) :
    Keypad_uasyncio.key_events L ⟨ch, KEY_UP, 0⟩ (List.replicate n true ++ [false]) = [KEY_UP] ∧
    Keypad_uasyncio.event_at L ⟨ch, KEY_UP, 0⟩ (List.replicate n true ++ [false]) n = some KEY_UP := by
  simp only [KEY_UP]
  have hsplit : List.replicate n true = true :: List.replicate (n - 1) true := by
    rw [show n = (n - 1) + 1 by omega, List.replicate_succ]
    simp
  have hdown := run_true_down L ch (n - 1) 0 (by omega)
  rw [Nat.zero_add] at hdown
  have hrel := key_process_down_false L (n - 1) ch (by omega)
  constructor
  · rw [hsplit]
    simp only [List.cons_append, Keypad_uasyncio.key_events, key_process_fresh_true,
      List.append_eq]
    rw [key_events_append L [false] (List.replicate (n - 1) true) ⟨ch, 1, 0⟩]
    rw [hdown.1, hdown.2]
    simp [Keypad_uasyncio.key_events, hrel, KEY_UP, KEY_DOWN_LONG]
  · have hidx : (List.replicate n true ++ [false])[n]? = some false := by
      rw [List.getElem?_append_right (by simp)]
      simp
    have htake : (List.replicate n true ++ [false]).take n = List.replicate n true :=
      List.take_left' (by simp)
    simp only [Keypad_uasyncio.event_at, hidx, Keypad_uasyncio.state_at, htake]
    rw [hsplit]
    simp only [Keypad_uasyncio.runKey, List.foldl_cons, Keypad_uasyncio.key_step,
      key_process_fresh_true]
    have h1' := hdown.1
    simp only [Keypad_uasyncio.runKey] at h1'
    rw [h1', hrel]

/-- C2 (amended): a key pressed for at least L+1 consecutive samples and then
released produces exactly one queue event, the long (KEY_DOWN_LONG) event; it
is reported at the sample where the down count reaches L (the (L+1)-th
consecutive pressed sample), and the release reports no event. -/
theorem key_long_press_spec (L n : Nat) (ch : Char) (hL : 1 ≤ L) (hn : L + 1 ≤ n) :
    Keypad_uasyncio.key_events L ⟨ch, KEY_UP, 0⟩ (List.replicate n true ++ [false]) = [KEY_DOWN_LONG] ∧
    Keypad_uasyncio.event_at L ⟨ch, KEY_UP, 0⟩ (List.replicate n true ++ [false]) L = some KEY_DOWN_LONG ∧
    (Keypad_uasyncio.state_at L ⟨ch, KEY_UP, 0⟩ (List.replicate n true ++ [false]) (L + 1)).down_count = L ∧
    Keypad_uasyncio.event_at L ⟨ch, KEY_UP, 0⟩ (List.replicate n true ++ [false]) n = none := by
  simp only [KEY_UP, KEY_DOWN_LONG]
  have hesc := run_fresh_escalate L ch hL
  have hdl := run_true_dl L L ch
  have hrep : List.replicate n true =
      List.replicate (L + 1) true ++ List.replicate (n - (L + 1)) true := by
    rw [← List.replicate_add]
    congr 1
    omega
  refine ⟨?_, ?_, ?_, ?_⟩
  · rw [hrep, List.append_assoc]
    rw [key_events_append L _ (List.replicate (L + 1) true) ⟨ch, 0, 0⟩]
    rw [hesc.1, hesc.2]
    rw [key_events_append L [false] (List.replicate (n - (L + 1)) true) ⟨ch, 2, L⟩]
    rw [(hdl (n - (L + 1))).1, (hdl (n - (L + 1))).2]
    simp [Keypad_uasyncio.key_events, key_process_dl_false, KEY_UP, KEY_DOWN_LONG]
  · have hidx : (List.replicate n true ++ [false])[L]? = some true := by
      rw [List.getElem?_append, if_pos (by simp; omega)]
      exact List.getElem?_replicate_of_lt (by omega)
    have hsplitL : List.replicate n true ++ [false] =
        List.replicate L true ++ (List.replicate (n - L) true ++ [false]) := by
      rw [← List.append_assoc, ← List.replicate_add]
      congr 2
      omega
    have htake : (List.replicate n true ++ [false]).take L = List.replicate L true := by
      rw [hsplitL]
      exact List.take_left' (by simp)
    simp only [Keypad_uasyncio.event_at, hidx, Keypad_uasyncio.state_at, htake]
    have hsplit1 : List.replicate L true = true :: List.replicate (L - 1) true := by
      rw [show L = (L - 1) + 1 by omega, List.replicate_succ]
      simp
    rw [hsplit1]
    simp only [Keypad_uasyncio.runKey, List.foldl_cons, Keypad_uasyncio.key_step,
      key_process_fresh_true]
    have hdown := run_true_down L ch (L - 1) 0 (by omega)
    rw [Nat.zero_add] at hdown
    have h1' := hdown.1
    simp only [Keypad_uasyncio.runKey] at h1'
    rw [h1']
    rw [key_process_down_escalate L (L - 1) ch (by omega)]
  · have hsplit2 : List.replicate n true ++ [false] =
        List.replicate (L + 1) true ++ (List.replicate (n - (L + 1)) true ++ [false]) := by
      rw [← List.append_assoc, ← List.replicate_add]
      congr 2
      omega
    have htake : (List.replicate n true ++ [false]).take (L + 1) = List.replicate (L + 1) true := by
      rw [hsplit2]
      exact List.take_left' (by simp)
    simp only [Keypad_uasyncio.state_at, htake, hesc.1]
  · have hidx : (List.replicate n true ++ [false])[n]? = some false := by
      rw [List.getElem?_append_right (by simp)]
      simp
    have htake : (List.replicate n true ++ [false]).take n = List.replicate n true :=
      List.take_left' (by simp)
    simp only [Keypad_uasyncio.event_at, hidx, Keypad_uasyncio.state_at, htake]
    rw [hrep]
    simp only [Keypad_uasyncio.runKey, List.foldl_append]
    have h1' := hesc.1
    simp only [Keypad_uasyncio.runKey] at h1'
    rw [h1']
    have h2' := (hdl (n - (L + 1))).1
    simp only [Keypad_uasyncio.runKey] at h2'
    rw [h2', key_process_dl_false]

end Keypad

namespace Keypad

/-- Recurrence for `state_at`: one more sample applies one `key_step` (or
nothing beyond the end of the input). -/
theorem state_at_succ (L : Nat) (k : KeyRec) (inputs : List Bool) (n : Nat) :
    Keypad_uasyncio.state_at L k inputs (n + 1) =
      match inputs[n]? with
      | some b => Keypad_uasyncio.key_step L (Keypad_uasyncio.state_at L k inputs n) b
      | none => Keypad_uasyncio.state_at L k inputs n := by
  simp only [Keypad_uasyncio.state_at, Keypad_uasyncio.runKey, List.take_succ]
  cases h : inputs[n]? with
  | none => simp [h]
  | some b => simp [h, List.foldl_append]

/-- A KEY_DOWN event is reported only from state UP, and leaves the key in
state DOWN. -/
theorem event_down_shape (L : Nat) (k : KeyRec) (b : Bool)
    (h : (Keypad_uasyncio.key_process L k b).1 = some KEY_DOWN) :
    k.state = KEY_UP ∧ (Keypad_uasyncio.key_process L k b).2.state = KEY_DOWN := by
  simp only [KEY_UP, KEY_DOWN] at *
  cases b <;> simp only [Keypad_uasyncio.key_process, KEY_UP, KEY_DOWN, KEY_DOWN_LONG,
    KEY_UP_LONG, Bool.false_eq_true, if_false, if_true] at h ⊢ <;> split_ifs at h ⊢ <;>
    simp_all

/-- A KEY_DOWN_LONG event is reported only from state DOWN, and leaves the
key in state DOWN_LONG. -/
theorem event_dl_shape (L : Nat) (k : KeyRec) (b : Bool)
    (h : (Keypad_uasyncio.key_process L k b).1 = some KEY_DOWN_LONG) :
    k.state = KEY_DOWN ∧ (Keypad_uasyncio.key_process L k b).2.state = KEY_DOWN_LONG := by
  simp only [KEY_DOWN, KEY_DOWN_LONG] at *
  cases b <;> simp only [Keypad_uasyncio.key_process, KEY_UP, KEY_DOWN, KEY_DOWN_LONG,
    KEY_UP_LONG, Bool.false_eq_true, if_false, if_true] at h ⊢ <;> split_ifs at h ⊢ <;>
    simp_all

/-- A step from state DOWN_LONG either stays in DOWN_LONG (pressed) or goes
to UP (released). -/
theorem dl_step (L : Nat) (k : KeyRec) (b : Bool) (h : k.state = KEY_DOWN_LONG) :
    (Keypad_uasyncio.key_step L k b).state = KEY_DOWN_LONG ∨
    (Keypad_uasyncio.key_step L k b).state = KEY_UP := by
  simp only [KEY_UP, KEY_DOWN_LONG] at *
  cases b <;> simp [Keypad_uasyncio.key_step, Keypad_uasyncio.key_process, KEY_UP, KEY_DOWN, h]

/-- A key in state DOWN_LONG stays in DOWN_LONG as long as its state does not
return to UP. -/
theorem dl_persist (L : Nat) (k : KeyRec) (inputs : List Bool) :
    ∀ (t a : Nat), (Keypad_uasyncio.state_at L k inputs a).state = KEY_DOWN_LONG →
      (∀ m, a < m → m ≤ a + t → (Keypad_uasyncio.state_at L k inputs m).state ≠ KEY_UP) →
      (Keypad_uasyncio.state_at L k inputs (a + t)).state = KEY_DOWN_LONG := by
  intro t
  induction t with
  | zero => intro a ha _; exact ha
  | succ t ih =>
    intro a ha hup
    have hprev := ih a ha (fun m h1 h2 => hup m h1 (by omega))
    have hnext : a + (t + 1) = (a + t) + 1 := by omega
    rw [hnext, state_at_succ]
    cases h : inputs[a + t]? with
    | none => exact hprev
    | some b =>
      rcases dl_step L (Keypad_uasyncio.state_at L k inputs (a + t)) b hprev with h2 | h2
      · exact h2
      · exfalso
        apply hup (a + t + 1) (by omega) (by omega)
        rw [state_at_succ, h]
        exact h2

/-- C9 (amended): if a key reports two DOWN-class events at samples i < j and
its state never returns to UP in between, then the first is KEY_DOWN and the
second is KEY_DOWN_LONG (the escalation of the same press); in particular the
same DOWN-class event never repeats without an intervening return to UP. -/
theorem key_down_pair_spec (L : Nat) (k : KeyRec) (inputs : List Bool) (i j : Nat)
    (hij : i < j)
    (hi : Keypad_uasyncio.event_at L k inputs i = some KEY_DOWN ∨
      Keypad_uasyncio.event_at L k inputs i = some KEY_DOWN_LONG)
    (hj : Keypad_uasyncio.event_at L k inputs j = some KEY_DOWN ∨
      Keypad_uasyncio.event_at L k inputs j = some KEY_DOWN_LONG)
    (hup : ∀ m, i < m → m ≤ j → (Keypad_uasyncio.state_at L k inputs m).state ≠ KEY_UP) :
    Keypad_uasyncio.event_at L k inputs i = some KEY_DOWN ∧
    Keypad_uasyncio.event_at L k inputs j = some KEY_DOWN_LONG := by
  have hj2 : Keypad_uasyncio.event_at L k inputs j = some KEY_DOWN_LONG := by
    rcases hj with hj | hj
    · exfalso
      simp only [Keypad_uasyncio.event_at] at hj
      rcases hb : inputs[j]? with _ | b
      · rw [hb] at hj; exact Option.noConfusion hj
      · rw [hb] at hj
        have := (event_down_shape L (Keypad_uasyncio.state_at L k inputs j) b hj).1
        exact hup j hij (le_refl j) this
    · exact hj
  refine ⟨?_, hj2⟩
  rcases hi with hi | hi
  · exact hi
  · exfalso
    simp only [Keypad_uasyncio.event_at] at hi
    rcases hb : inputs[i]? with _ | b
    · rw [hb] at hi; exact Option.noConfusion hi
    · rw [hb] at hi
      have hpost := (event_dl_shape L (Keypad_uasyncio.state_at L k inputs i) b hi).2
      have hstart : (Keypad_uasyncio.state_at L k inputs (i + 1)).state = KEY_DOWN_LONG := by
        rw [state_at_succ, hb]
        exact hpost
      have hper := dl_persist L k inputs (j - (i + 1)) (i + 1) hstart
        (fun m h1 h2 => hup m (by omega) (by omega))
      rw [show i + 1 + (j - (i + 1)) = j by omega] at hper
      have hjdown : (Keypad_uasyncio.state_at L k inputs j).state = KEY_DOWN := by
        simp only [Keypad_uasyncio.event_at] at hj2
        rcases hb2 : inputs[j]? with _ | b2
        · rw [hb2] at hj2; exact Option.noConfusion hj2
        · rw [hb2] at hj2
          exact (event_dl_shape L (Keypad_uasyncio.state_at L k inputs j) b2 hj2).1
      rw [hper] at hjdown
      simp [KEY_DOWN, KEY_DOWN_LONG] at hjdown

/-- One `key_process` step preserves `KeyInv` when the threshold is at least
one. -/
theorem KeyInv_step (L : Nat) (hL : 1 ≤ L) (k : KeyRec) (b : Bool) (h : KeyInv L k) :
    KeyInv L (Keypad_uasyncio.key_step L k b) := by
  obtain ⟨h0, h1⟩ := h
  simp only [KeyInv, KEY_UP, KEY_DOWN] at *
  cases b <;> simp only [Keypad_uasyncio.key_step, Keypad_uasyncio.key_process, KEY_UP,
    KEY_DOWN, KEY_DOWN_LONG, KEY_UP_LONG, Bool.false_eq_true, if_false, if_true] <;>
    split_ifs <;> simp_all <;> omega

/-- `KeyInv` is preserved along any run. -/
theorem KeyInv_run (L : Nat) (hL : 1 ≤ L) :
    ∀ (inputs : List Bool) (k : KeyRec), KeyInv L k →
      KeyInv L (Keypad_uasyncio.runKey L k inputs) := by
  intro inputs
  induction inputs with
  | nil => intro k h; exact h
  | cons b bs ih =>
    intro k h
    simp only [Keypad_uasyncio.runKey, List.foldl_cons]
    exact ih _ (KeyInv_step L hL k b h)

/-- Under `KeyInv`, `key_process` never reports KEY_UP_LONG. -/
theorem KeyInv_no_up_long (L : Nat) (k : KeyRec) (b : Bool) (h : KeyInv L k) :
    (Keypad_uasyncio.key_process L k b).1 ≠ some KEY_UP_LONG := by
  obtain ⟨h0, h1⟩ := h
  simp only [KEY_UP, KEY_DOWN] at *
  cases b <;> simp only [Keypad_uasyncio.key_process, KEY_UP, KEY_DOWN, KEY_DOWN_LONG,
    KEY_UP_LONG, Bool.false_eq_true, if_false, if_true] <;> split_ifs <;> simp_all

/-- C10: starting from the initial all-UP table, a key record in state
KEY_DOWN always has its count strictly below the threshold, and the
KEY_UP_LONG event value is never reported. -/
theorem key_up_long_never (L : Nat) (hL : 1 ≤ L) (ch : Char) (inputs : List Bool) :
    ((Keypad_uasyncio.runKey L ⟨ch, KEY_UP, 0⟩ inputs).state = KEY_DOWN →
      (Keypad_uasyncio.runKey L ⟨ch, KEY_UP, 0⟩ inputs).down_count < L) ∧
    ∀ n, Keypad_uasyncio.event_at L ⟨ch, KEY_UP, 0⟩ inputs n ≠ some KEY_UP_LONG := by
  have hinv0 : KeyInv L ⟨ch, KEY_UP, 0⟩ := by
    constructor <;> intro h <;> simp_all [KEY_UP, KEY_DOWN]
  constructor
  · exact (KeyInv_run L hL inputs ⟨ch, KEY_UP, 0⟩ hinv0).2
  · intro n
    simp only [Keypad_uasyncio.event_at]
    rcases hb : inputs[n]? with _ | b
    · simp
    · exact KeyInv_no_up_long L _ b
        (KeyInv_run L hL (inputs.take n) ⟨ch, KEY_UP, 0⟩ hinv0)

end Keypad

namespace Keypad

/-- C5 (amended): below the escalation threshold and on the UP/DOWN states,
the two per-key transition functions agree: the timer transition on the
count-erased record reports the same event and computes the count-erased
update of the uasyncio transition. -/
theorem key_process_agree (L : Nat) (k : KeyRec) (p : Bool)
    (hs : k.state = KEY_UP ∨ k.state = KEY_DOWN) (hc : k.down_count + 1 < L) :
    (Keypad_Timer.key_process (absRec k) p).1 = (Keypad_uasyncio.key_process L k p).1 ∧
    (Keypad_Timer.key_process (absRec k) p).2 = absRec (Keypad_uasyncio.key_process L k p).2 := by
  have h1 : ¬ L ≤ k.down_count + 1 := by omega
  have h2 : k.down_count < L := by omega
  rcases hs with hs | hs <;> cases p <;>
    simp [Keypad_Timer.key_process, Keypad_uasyncio.key_process, absRec,
      KEY_UP, KEY_DOWN, hs, h1, h2]

/-- C5 counterexample: at the escalation point the two transition functions
disagree on corresponding records: the uasyncio transition reports
KEY_DOWN_LONG where the timer transition reports no event. -/
theorem key_process_disagree_cex :
    absRec ⟨'1', KEY_DOWN, 19⟩ = ⟨'1', KEY_DOWN⟩ ∧
    (Keypad_Timer.key_process ⟨'1', KEY_DOWN⟩ true).1 = none ∧
    (Keypad_uasyncio.key_process 20 ⟨'1', KEY_DOWN, 19⟩ true).1 = some KEY_DOWN_LONG ∧
    (Keypad_Timer.key_process ⟨'1', KEY_DOWN⟩ true).1 ≠
      (Keypad_uasyncio.key_process 20 ⟨'1', KEY_DOWN, 19⟩ true).1 := by
  decide

/-- Witness for `key_process_agree` at a concrete record. -/
theorem key_process_agree_witness :
    ((⟨'1', KEY_UP, 0⟩ : KeyRec).state = KEY_UP ∧ (⟨'1', KEY_UP, 0⟩ : KeyRec).down_count + 1 < 20) ∧
    (Keypad_Timer.key_process (absRec ⟨'1', KEY_UP, 0⟩) true).1 =
      (Keypad_uasyncio.key_process 20 ⟨'1', KEY_UP, 0⟩ true).1 ∧
    (Keypad_Timer.key_process (absRec ⟨'1', KEY_UP, 0⟩) true).2 =
      absRec (Keypad_uasyncio.key_process 20 ⟨'1', KEY_UP, 0⟩ true).2 :=
  ⟨⟨rfl, by decide⟩, key_process_agree 20 ⟨'1', KEY_UP, 0⟩ true (Or.inl rfl) (by decide)⟩

/-- C6: overwrite-slot semantics of the interrupt model.  First, in general:
two slot writes with no intervening `get_key` leave only the second value
retrievable, `get_key` clears the slot, and a second `get_key` returns the
none sentinel.  Second, the same behaviour through two actual timer ticks
that each write the slot (key (0,0) is pressed during the row-0 tick writing
the character 1, key (1,0) during the row-1 tick overwriting it with 4). -/
theorem overwrite_slot_spec :
    (∀ (s : TimerState) (kc1 : Nat) (c1 : Char) (kc2 : Nat) (c2 : Char),
      (Keypad_Timer.get_key (Keypad_Timer.slot_put (Keypad_Timer.slot_put s kc1 c1) kc2 c2)).1 = some c2 ∧
      (Keypad_Timer.get_key
        ((Keypad_Timer.get_key (Keypad_Timer.slot_put (Keypad_Timer.slot_put s kc1 c1) kc2 c2)).2)).1 = none) ∧
    ((Keypad_Timer.ticks_run timer_init [fun c => c == 0]).key_char = some '1' ∧
     (Keypad_Timer.get_key
        (Keypad_Timer.ticks_run timer_init [fun c => c == 0, fun c => c == 0])).1 = some '4' ∧
     (Keypad_Timer.get_key
        ((Keypad_Timer.get_key
          (Keypad_Timer.ticks_run timer_init [fun c => c == 0, fun c => c == 0])).2)).1 = none) := by
  constructor
  · intro s kc1 c1 kc2 c2
    constructor <;> simp [Keypad_Timer.get_key, Keypad_Timer.slot_put]
  · refine ⟨by decide, by decide, by decide⟩

/-- C8 counterexample: with 3 rows the per-row delay is 40 / 3 = 13 ms and
the total settle time of a full cycle is 39 ms, not the 40 ms budget. -/
theorem settle_three_rows_cex :
    1 ≤ 3 ∧ Keypad_uasyncio.total_settle_ms 3 ≠ 40 := by decide

/-- C8 (amended): the per-row delay is the integer division 40 / num_rows,
so the total settle time of a cycle equals the 40 ms budget exactly when
num_rows divides 40; the 4-row matrix of the code does satisfy this. -/
theorem settle_budget_spec (n : Nat) (hn : 1 ≤ n) :
    (Keypad_uasyncio.total_settle_ms n = 40 ↔ n ∣ 40) ∧
    Keypad_uasyncio.total_settle_ms 4 = 40 := by
  constructor
  · constructor
    · intro h
      exact ⟨40 / n, h.symm⟩
    · intro h
      simp only [Keypad_uasyncio.total_settle_ms, Keypad_uasyncio.row_scan_delay_ms]
      exact Nat.mul_div_cancel' h
  · decide

/-- Witness for `settle_budget_spec` at the 4-row matrix of the code. -/
theorem settle_budget_spec_witness :
    1 ≤ 4 ∧ ((Keypad_uasyncio.total_settle_ms 4 = 40 ↔ 4 ∣ 40) ∧
      Keypad_uasyncio.total_settle_ms 4 = 40) :=
  ⟨by decide, settle_budget_spec 4 (by decide)⟩

/-- C4: the timer model reports the wrong character for keys outside column
0.  Pressing the key at row 0, column 1 (character 2 on the keypad) stores
the character of the key at the row base (character 1) in the slot, because
`timer_callback` indexes `self.keys` with the row-base code instead of
`key_code + col`; the cooperative model decodes the same key correctly. -/
theorem timer_wrong_column_char :
    (Keypad_Timer.timer_callback timer_init (fun c => c == 1)).key_char = some '1' ∧
    (tkeys_init.getD 1 TKEY_DFLT).char = '2' ∧
    (Keypad_Timer.timer_callback timer_init (fun c => c == 1)).key_char ≠ some '2' ∧
    (Keypad_uasyncio.scan_run 20 keys_init [m01, m_off]).2 = ['2'] := by
  refine ⟨by decide, by decide, by decide, by decide⟩

end Keypad

namespace Keypad

/-- A column step changes the key table by exactly one `set` at the sampled
code, computed by `key_process` from the record at that code. -/
theorem tick_col_keys (colv : Nat → Bool) (kc : Nat) (s : TimerState) (c : Nat) :
    (Keypad_Timer.tick_col colv kc s c).keys =
      s.keys.set (kc + c)
        (Keypad_Timer.key_process (s.keys.getD (kc + c) TKEY_DFLT) (colv c)).2 := by
  simp only [Keypad_Timer.tick_col]
  split <;> rfl

/-- A column step leaves the row output pins unchanged. -/
theorem tick_col_row_vals (colv : Nat → Bool) (kc : Nat) (s : TimerState) (c : Nat) :
    (Keypad_Timer.tick_col colv kc s c).row_vals = s.row_vals := by
  simp only [Keypad_Timer.tick_col]
  split <;> rfl

/-- A column step leaves the row index unchanged. -/
theorem tick_col_scan_row (colv : Nat → Bool) (kc : Nat) (s : TimerState) (c : Nat) :
    (Keypad_Timer.tick_col colv kc s c).scan_row = s.scan_row := by
  simp only [Keypad_Timer.tick_col]
  split <;> rfl

/-- `scan_row_update` does not touch the key table. -/
theorem scan_row_update_keys (s : TimerState) :
    (Keypad_Timer.scan_row_update s).keys = s.keys := rfl

/-- With 4 row pins and an in-range row index, `scan_row_update` advances the
row index modulo 4 and moves the asserted level from the old row to the new
one. -/
theorem scan_row_update_spec (s : TimerState) (hr : s.scan_row < 4)
    (hv : s.row_vals.length = 4) :
    (Keypad_Timer.scan_row_update s).scan_row = (s.scan_row + 1) % 4 ∧
    (Keypad_Timer.scan_row_update s).row_vals =
      (s.row_vals.set s.scan_row false).set ((s.scan_row + 1) % 4) true := by
  have hif : (if (s.row_vals.set s.scan_row false).length ≤ s.scan_row + 1 then 0
      else s.scan_row + 1) = (s.scan_row + 1) % 4 := by
    simp only [List.length_set, hv]
    split <;> omega
  refine ⟨?_, ?_⟩ <;> simp only [Keypad_Timer.scan_row_update, hif]

/-- The column loop of a tick leaves row pins and row index unchanged. -/
theorem timer_fold_frame (colv : Nat → Bool) (kc : Nat) (s : TimerState) :
    ((List.range 4).foldl (Keypad_Timer.tick_col colv kc) s).row_vals = s.row_vals ∧
    ((List.range 4).foldl (Keypad_Timer.tick_col colv kc) s).scan_row = s.scan_row := by
  rw [show List.range 4 = [0, 1, 2, 3] from rfl]
  simp only [List.foldl_cons, List.foldl_nil]
  constructor
  · simp only [tick_col_row_vals]
  · simp only [tick_col_scan_row]

/-- The key table after the column loop of a tick: four `set` operations at the codes of the
current row. -/
theorem timer_fold_keys (colv : Nat → Bool) (kc : Nat) (s : TimerState) :
    ((List.range 4).foldl (Keypad_Timer.tick_col colv kc) s).keys =
      ((((s.keys.set (kc + 0)
        (Keypad_Timer.key_process (s.keys.getD (kc + 0) TKEY_DFLT) (colv 0)).2).set (kc + 1)
        (Keypad_Timer.key_process (s.keys.getD (kc + 1) TKEY_DFLT) (colv 1)).2).set (kc + 2)
        (Keypad_Timer.key_process (s.keys.getD (kc + 2) TKEY_DFLT) (colv 2)).2).set (kc + 3)
        (Keypad_Timer.key_process (s.keys.getD (kc + 3) TKEY_DFLT) (colv 3)).2) := by
  rw [show List.range 4 = [0, 1, 2, 3] from rfl]
  simp only [List.foldl_cons, List.foldl_nil]
  simp only [tick_col_keys]
  congr 1
  · congr 1
    · congr 1
      · rw [List.getD_eq_getElem?_getD, List.getElem?_set_ne (by omega),
          ← List.getD_eq_getElem?_getD]
    · rw [List.getD_eq_getElem?_getD, List.getElem?_set_ne (by omega),
        List.getElem?_set_ne (by omega), ← List.getD_eq_getElem?_getD]
  · rw [List.getD_eq_getElem?_getD, List.getElem?_set_ne (by omega),
      List.getElem?_set_ne (by omega), List.getElem?_set_ne (by omega),
      ← List.getD_eq_getElem?_getD]

end Keypad

namespace Keypad

/-- One tick advances the row index modulo 4 and moves the asserted row
level accordingly. -/
theorem timer_callback_frame (s : TimerState) (colv : Nat → Bool)
    (hr : s.scan_row < 4) (hv : s.row_vals.length = 4) :
    (Keypad_Timer.timer_callback s colv).scan_row = (s.scan_row + 1) % 4 ∧
    (Keypad_Timer.timer_callback s colv).row_vals =
      (s.row_vals.set s.scan_row false).set ((s.scan_row + 1) % 4) true := by
  have hfr := timer_fold_frame colv (s.scan_row * 4) s
  have hrF : ((List.range 4).foldl (Keypad_Timer.tick_col colv (s.scan_row * 4)) s).scan_row < 4 := by
    rw [hfr.2]; exact hr
  have hvF : ((List.range 4).foldl (Keypad_Timer.tick_col colv (s.scan_row * 4)) s).row_vals.length = 4 := by
    rw [hfr.1]; exact hv
  have hspec := scan_row_update_spec _ hrF hvF
  simp only [Keypad_Timer.timer_callback]
  rw [hspec.1, hspec.2, hfr.1, hfr.2]
  exact ⟨rfl, rfl⟩

/-- The row index after any run of ticks, starting in range with 4 row pins:
it advances by one per tick, modulo 4. -/
theorem ticks_run_scan_row :
    ∀ (ivs : List (Nat → Bool)) (s : TimerState), s.scan_row < 4 → s.row_vals.length = 4 →
      (Keypad_Timer.ticks_run s ivs).scan_row = (s.scan_row + ivs.length) % 4 := by
  intro ivs
  induction ivs with
  | nil =>
    intro s hr hv
    simp only [Keypad_Timer.ticks_run, List.foldl_nil, List.length_nil, Nat.add_zero]
    omega
  | cons iv ivs ih =>
    intro s hr hv
    have hfr := timer_callback_frame s iv hr hv
    have hr2 : (Keypad_Timer.timer_callback s iv).scan_row < 4 := by
      rw [hfr.1]; exact Nat.mod_lt _ (by omega)
    have hv2 : (Keypad_Timer.timer_callback s iv).row_vals.length = 4 := by
      rw [hfr.2]; simp [hv]
    have := ih (Keypad_Timer.timer_callback s iv) hr2 hv2
    simp only [Keypad_Timer.ticks_run, List.foldl_cons] at this ⊢
    rw [this, hfr.1, Nat.mod_add_mod]
    congr 1
    simp [List.length_cons]
    omega

/-- C7: one timer tick samples exactly the four keys of the row that was
asserted during this invocation (each once, via `key_process` with its own
column level, with all other keys untouched), deasserts that row, advances
the row index by one modulo 4 (staying in range), and asserts the new row;
over any run of ticks the row index advances once per tick, so each row —
hence each key — is sampled exactly once per 4 consecutive ticks, the 4
successive row indices being a permutation of all 4 rows. -/
theorem timer_tick_spec (s : TimerState) (colv : Nat → Bool)
    (hr : s.scan_row < 4) (hv : s.row_vals.length = 4) (hk : s.keys.length = 16) :
    (Keypad_Timer.timer_callback s colv).scan_row = (s.scan_row + 1) % 4 ∧
    (Keypad_Timer.timer_callback s colv).scan_row < 4 ∧
    (Keypad_Timer.timer_callback s colv).row_vals =
      (s.row_vals.set s.scan_row false).set ((s.scan_row + 1) % 4) true ∧
    (∀ k, k < 16 → k / 4 ≠ s.scan_row →
      (Keypad_Timer.timer_callback s colv).keys[k]? = s.keys[k]?) ∧
    (∀ c, c < 4 →
      (Keypad_Timer.timer_callback s colv).keys[s.scan_row * 4 + c]? =
        some (Keypad_Timer.key_process (s.keys.getD (s.scan_row * 4 + c) TKEY_DFLT) (colv c)).2) ∧
    (∀ ivs : List (Nat → Bool),
      (Keypad_Timer.ticks_run s ivs).scan_row = (s.scan_row + ivs.length) % 4) ∧
    ((List.range 4).map (fun i => (s.scan_row + i) % 4)).Perm (List.range 4) := by
  have hfr := timer_callback_frame s colv hr hv
  have hkeys : (Keypad_Timer.timer_callback s colv).keys =
      ((((s.keys.set (s.scan_row * 4 + 0)
        (Keypad_Timer.key_process (s.keys.getD (s.scan_row * 4 + 0) TKEY_DFLT) (colv 0)).2).set (s.scan_row * 4 + 1)
        (Keypad_Timer.key_process (s.keys.getD (s.scan_row * 4 + 1) TKEY_DFLT) (colv 1)).2).set (s.scan_row * 4 + 2)
        (Keypad_Timer.key_process (s.keys.getD (s.scan_row * 4 + 2) TKEY_DFLT) (colv 2)).2).set (s.scan_row * 4 + 3)
        (Keypad_Timer.key_process (s.keys.getD (s.scan_row * 4 + 3) TKEY_DFLT) (colv 3)).2) := by
    simp only [Keypad_Timer.timer_callback]
    rw [scan_row_update_keys, timer_fold_keys]
  refine ⟨hfr.1, ?_, hfr.2, ?_, ?_, ?_, ?_⟩
  · rw [hfr.1]; exact Nat.mod_lt _ (by omega)
  · intro k hk16 hkr
    rw [hkeys, List.getElem?_set_ne (by omega), List.getElem?_set_ne (by omega),
      List.getElem?_set_ne (by omega), List.getElem?_set_ne (by omega)]
  · intro c hc
    rw [hkeys]
    interval_cases c
    · rw [List.getElem?_set_ne (by omega), List.getElem?_set_ne (by omega),
        List.getElem?_set_ne (by omega),
        List.getElem?_set_eq_of_lt _ (by rw [hk]; omega)]
    · rw [List.getElem?_set_ne (by omega), List.getElem?_set_ne (by omega),
        List.getElem?_set_eq_of_lt _ (by simp only [List.length_set]; rw [hk]; omega)]
    · rw [List.getElem?_set_ne (by omega),
        List.getElem?_set_eq_of_lt _ (by simp only [List.length_set]; rw [hk]; omega)]
    · rw [List.getElem?_set_eq_of_lt _ (by simp only [List.length_set]; rw [hk]; omega)]
  · intro ivs
    exact ticks_run_scan_row ivs s hr hv
  · rcases (by omega : s.scan_row = 0 ∨ s.scan_row = 1 ∨ s.scan_row = 2 ∨ s.scan_row = 3)
      with h | h | h | h <;> rw [h] <;> decide

end Keypad

namespace Keypad

/-- Splitting a sequence of scan cycles splits the queued output. -/
theorem scan_run_append (L : Nat) (ys : List (Nat → Nat → Bool)) :
    ∀ (xs : List (Nat → Nat → Bool)) (keys : List KeyRec),
      Keypad_uasyncio.scan_run L keys (xs ++ ys) =
        ((Keypad_uasyncio.scan_run L (Keypad_uasyncio.scan_run L keys xs).1 ys).1,
         (Keypad_uasyncio.scan_run L keys xs).2 ++
           (Keypad_uasyncio.scan_run L (Keypad_uasyncio.scan_run L keys xs).1 ys).2) := by
  intro xs
  induction xs with
  | nil =>
    intro keys
    simp [Keypad_uasyncio.scan_run]
  | cons x xs ih =>
    intro keys
    simp only [List.cons_append, Keypad_uasyncio.scan_run, List.append_eq]
    rw [ih]
    simp [List.append_assoc]

/-- The first pressed cycle of key (0,0): key 0 goes DOWN, nothing queued. -/
theorem cycle_first : Keypad_uasyncio.scan_cycle 20 keys_init m00 = (K_down 0, []) := by decide

/-- Pressed cycles below the threshold: the count of key 0 increments,
nothing queued. -/
theorem cycle_step : ∀ c ∈ List.range 19,
    Keypad_uasyncio.scan_cycle 20 (K_down c) m00 = (K_down (c + 1), []) := by decide

/-- The escalation cycle: count reaches 20, the long character m is queued. -/
theorem cycle_escalate : Keypad_uasyncio.scan_cycle 20 (K_down 19) m00 = (S_star, ['m']) := by
  decide

/-- A pressed cycle on the escalated table is silent and changes nothing. -/
theorem s_star_cycle : Keypad_uasyncio.scan_cycle 20 S_star m00 = (S_star, []) := by decide

/-- The release cycle on the escalated table is silent and resets the
table. -/
theorem s_star_cycle_off : Keypad_uasyncio.scan_cycle 20 S_star m_off = (keys_init, []) := by decide

/-- A run of pressed cycles below the threshold adds up the count of key 0
and queues nothing. -/
theorem runK : ∀ (j c : Nat), c + j ≤ 19 →
    Keypad_uasyncio.scan_run 20 (K_down c) (List.replicate j m00) = (K_down (c + j), []) := by
  intro j
  induction j with
  | zero =>
    intro c h
    simp [Keypad_uasyncio.scan_run]
  | succ j ih =>
    intro c h
    have hstep := cycle_step c (by simp [List.mem_range]; omega)
    have ihc := ih (c + 1) (by omega)
    rw [show c + 1 + j = c + (j + 1) by omega] at ihc
    rw [List.replicate_succ]
    simp only [Keypad_uasyncio.scan_run, hstep, ihc]
    simp

/-- Unfolding one scan cycle of a cycle sequence. -/
theorem scan_run_cons (L : Nat) (keys : List KeyRec) (p : Nat → Nat → Bool)
    (ps : List (Nat → Nat → Bool)) :
    Keypad_uasyncio.scan_run L keys (p :: ps) =
      ((Keypad_uasyncio.scan_run L (Keypad_uasyncio.scan_cycle L keys p).1 ps).1,
       (Keypad_uasyncio.scan_cycle L keys p).2 ++
         (Keypad_uasyncio.scan_run L (Keypad_uasyncio.scan_cycle L keys p).1 ps).2) := rfl

/-- Twenty-one pressed cycles of key (0,0) produce exactly the long
character and leave the escalated table. -/
theorem scan21 : Keypad_uasyncio.scan_run 20 keys_init (List.replicate 21 m00) = (S_star, ['m']) := by
  have h21 : List.replicate 21 m00 = m00 :: (List.replicate 19 m00 ++ [m00]) := by
    rw [show (21 : Nat) = 19 + 1 + 1 by omega, List.replicate_succ, List.replicate_succ' 19 m00]
  have h19 := runK 19 0 (by omega)
  rw [Nat.zero_add] at h19
  rw [h21, scan_run_cons, cycle_first]
  dsimp only
  rw [scan_run_append, h19]
  dsimp only
  rw [scan_run_cons, cycle_escalate]
  simp [Keypad_uasyncio.scan_run]

/-- Any further pressed cycles on the escalated table are silent. -/
theorem s_star_run : ∀ m, Keypad_uasyncio.scan_run 20 S_star (List.replicate m m00) = (S_star, []) := by
  intro m
  induction m with
  | zero => rfl
  | succ m ih =>
    rw [List.replicate_succ]
    simp only [Keypad_uasyncio.scan_run, s_star_cycle, ih]
    simp

/-- C1 (amended): on the 4x4 uasyncio keypad with threshold 20, holding key
(0,0) for 19 cycles and releasing queues exactly the short character 1;
holding it for 21 or more cycles queues exactly the long character m, already
emitted while the key is still held, and the release adds no event.  (The
20-cycle bound of the spec is off by one: the count increments only from the
second consecutive pressed sample.) -/
theorem uasyncio_scenario_spec (n : Nat) (hn : 21 ≤ n) :
    (Keypad_uasyncio.scan_run 20 keys_init (List.replicate 19 m00 ++ [m_off])).2 = ['1'] ∧
    (Keypad_uasyncio.scan_run 20 keys_init (List.replicate n m00)).2 = ['m'] ∧
    (Keypad_uasyncio.scan_run 20 keys_init (List.replicate n m00 ++ [m_off])).2 = ['m'] := by
  obtain ⟨m, rfl⟩ : ∃ m, n = 21 + m := ⟨n - 21, by omega⟩
  have hoff : Keypad_uasyncio.scan_run 20 S_star [m_off] = (keys_init, []) := by
    simp [Keypad_uasyncio.scan_run, s_star_cycle_off]
  refine ⟨by decide, ?_, ?_⟩
  · rw [List.replicate_add, scan_run_append, scan21]
    dsimp only
    rw [s_star_run m]
    simp
  · rw [List.replicate_add, List.append_assoc, scan_run_append, scan21]
    dsimp only
    rw [scan_run_append, s_star_run m]
    dsimp only
    rw [hoff]
    simp
/-- C1 counterexample: holding key (0,0) for exactly 20 cycles and releasing
queues the short character 1, not the long character m as the claim
states. -/
theorem uasyncio_hold20_cex :
    (Keypad_uasyncio.scan_run 20 keys_init (List.replicate 20 m00 ++ [m_off])).2 = ['1'] ∧
    (Keypad_uasyncio.scan_run 20 keys_init (List.replicate 20 m00 ++ [m_off])).2 ≠ ['m'] := by
  refine ⟨by decide, by decide⟩

/-- Witness for `uasyncio_scenario_spec` at 21 cycles. -/
theorem uasyncio_scenario_spec_witness :
    21 ≤ 21 ∧
    ((Keypad_uasyncio.scan_run 20 keys_init (List.replicate 19 m00 ++ [m_off])).2 = ['1'] ∧
     (Keypad_uasyncio.scan_run 20 keys_init (List.replicate 21 m00)).2 = ['m'] ∧
     (Keypad_uasyncio.scan_run 20 keys_init (List.replicate 21 m00 ++ [m_off])).2 = ['m']) :=
  ⟨by decide, uasyncio_scenario_spec 21 (by decide)⟩

/-- C2 counterexample: a key pressed for exactly L = 20 consecutive samples
and then released produces a short event and no long event, although the
claim requires exactly one long event for any press of at least L samples. -/
theorem key_long_press_at_threshold_cex :
    Keypad_uasyncio.key_events 20 ⟨'1', KEY_UP, 0⟩ (List.replicate 20 true ++ [false]) = [KEY_UP] ∧
    KEY_DOWN_LONG ∉ Keypad_uasyncio.key_events 20 ⟨'1', KEY_UP, 0⟩ (List.replicate 20 true ++ [false]) := by
  refine ⟨by decide, by decide⟩

/-- Witness for `key_long_press_spec` at threshold 1 and a 2-sample press. -/
theorem key_long_press_spec_witness :
    (1 ≤ 1 ∧ 1 + 1 ≤ 2) ∧
    (Keypad_uasyncio.key_events 1 ⟨'1', KEY_UP, 0⟩ (List.replicate 2 true ++ [false]) = [KEY_DOWN_LONG] ∧
     Keypad_uasyncio.event_at 1 ⟨'1', KEY_UP, 0⟩ (List.replicate 2 true ++ [false]) 1 = some KEY_DOWN_LONG ∧
     (Keypad_uasyncio.state_at 1 ⟨'1', KEY_UP, 0⟩ (List.replicate 2 true ++ [false]) (1 + 1)).down_count = 1 ∧
     Keypad_uasyncio.event_at 1 ⟨'1', KEY_UP, 0⟩ (List.replicate 2 true ++ [false]) 2 = none) :=
  ⟨⟨by decide, by decide⟩, key_long_press_spec 1 2 '1' (by decide) (by decide)⟩

/-- Witness for `key_short_press_spec` at a 1-sample press below threshold 2. -/
theorem key_short_press_spec_witness :
    (1 ≤ 1 ∧ 1 < 2) ∧
    (Keypad_uasyncio.key_events 2 ⟨'1', KEY_UP, 0⟩ (List.replicate 1 true ++ [false]) = [KEY_UP] ∧
     Keypad_uasyncio.event_at 2 ⟨'1', KEY_UP, 0⟩ (List.replicate 1 true ++ [false]) 1 = some KEY_UP) :=
  ⟨⟨by decide, by decide⟩, key_short_press_spec 2 1 '1' (by decide) (by decide)⟩

/-- C9 counterexample: with the default threshold 20, a 21-sample press
reports KEY_DOWN at sample 0 and KEY_DOWN_LONG at sample 20 — two
consecutive DOWN-class events (no event in between) while the key state
never returning to UP between them. -/
theorem key_down_pair_without_up_cex :
    Keypad_uasyncio.event_at 20 ⟨'1', KEY_UP, 0⟩ (List.replicate 21 true) 0 = some KEY_DOWN ∧
    Keypad_uasyncio.event_at 20 ⟨'1', KEY_UP, 0⟩ (List.replicate 21 true) 20 = some KEY_DOWN_LONG ∧
    (∀ m ∈ List.range 21, 0 < m →
      (Keypad_uasyncio.state_at 20 ⟨'1', KEY_UP, 0⟩ (List.replicate 21 true) m).state ≠ KEY_UP) ∧
    (∀ m ∈ List.range 21, 0 < m → m < 20 →
      Keypad_uasyncio.event_at 20 ⟨'1', KEY_UP, 0⟩ (List.replicate 21 true) m = none) := by
  refine ⟨by decide, by decide, by decide, by decide⟩

/-- Witness for `key_down_pair_spec` on the 21-sample press. -/
theorem key_down_pair_spec_witness :
    (0 < 20 ∧
     Keypad_uasyncio.event_at 20 ⟨'1', KEY_UP, 0⟩ (List.replicate 21 true) 0 = some KEY_DOWN ∧
     Keypad_uasyncio.event_at 20 ⟨'1', KEY_UP, 0⟩ (List.replicate 21 true) 20 = some KEY_DOWN_LONG) ∧
    (Keypad_uasyncio.event_at 20 ⟨'1', KEY_UP, 0⟩ (List.replicate 21 true) 0 = some KEY_DOWN ∧
     Keypad_uasyncio.event_at 20 ⟨'1', KEY_UP, 0⟩ (List.replicate 21 true) 20 = some KEY_DOWN_LONG) :=
  ⟨⟨by decide, by decide, by decide⟩,
    key_down_pair_spec 20 ⟨'1', KEY_UP, 0⟩ (List.replicate 21 true) 0 20 (by decide)
      (Or.inl (by decide)) (Or.inr (by decide))
      (by
        intro m h1 h2
        interval_cases m <;> decide)⟩

/-- Witness for `key_up_long_never` at threshold 1 on a short press. -/
theorem key_up_long_never_witness :
    1 ≤ 1 ∧
    (((Keypad_uasyncio.runKey 1 ⟨'1', KEY_UP, 0⟩ [true, false]).state = KEY_DOWN →
       (Keypad_uasyncio.runKey 1 ⟨'1', KEY_UP, 0⟩ [true, false]).down_count < 1) ∧
     ∀ n, Keypad_uasyncio.event_at 1 ⟨'1', KEY_UP, 0⟩ [true, false] n ≠ some KEY_UP_LONG) :=
  ⟨by decide, key_up_long_never 1 (by decide) '1' [true, false]⟩

/-- Witness for `timer_tick_spec` at the initial timer state with no key
pressed. -/
theorem timer_tick_spec_witness :
    (timer_init.scan_row < 4 ∧ timer_init.row_vals.length = 4 ∧ timer_init.keys.length = 16) ∧
    ((Keypad_Timer.timer_callback timer_init (fun _ => false)).scan_row = (timer_init.scan_row + 1) % 4 ∧
     (Keypad_Timer.timer_callback timer_init (fun _ => false)).scan_row < 4 ∧
     (Keypad_Timer.timer_callback timer_init (fun _ => false)).row_vals =
       (timer_init.row_vals.set timer_init.scan_row false).set ((timer_init.scan_row + 1) % 4) true ∧
     (∀ k, k < 16 → k / 4 ≠ timer_init.scan_row →
       (Keypad_Timer.timer_callback timer_init (fun _ => false)).keys[k]? = timer_init.keys[k]?) ∧
     (∀ c, c < 4 →
       (Keypad_Timer.timer_callback timer_init (fun _ => false)).keys[timer_init.scan_row * 4 + c]? =
         some (Keypad_Timer.key_process (timer_init.keys.getD (timer_init.scan_row * 4 + c) TKEY_DFLT) false).2) ∧
     (∀ ivs : List (Nat → Bool),
       (Keypad_Timer.ticks_run timer_init ivs).scan_row = (timer_init.scan_row + ivs.length) % 4) ∧
     ((List.range 4).map (fun i => (timer_init.scan_row + i) % 4)).Perm (List.range 4)) :=
  ⟨⟨by decide, by decide, by decide⟩,
    timer_tick_spec timer_init (fun _ => false) (by decide) (by decide) (by decide)⟩

end Keypad
